import Mathlib

/-!
Verification of the message-peek decoding pipeline of a pub/sub admin
client (file pkg/pulsar/subscription.go): the peek loop (PeekMessages),
the response interpreter (handleResp) and the batch unpacker
(getIndividualMsgsFromBatch), embedded shallowly.  Bytes are modelled as
natural numbers (a real byte is below 256), byte buffers as lists, the
Go string-keyed map as an association list with in-place update, and the
external protobuf decoder for per-sub-message metadata as a function
parameter, per its consumed contract.
-/

namespace PulsarPeek

/-- A Go map from string to string, as an association list whose update
replaces in place; lookups see exactly the map semantics. -/
abbrev Props := List (String × String)

/-- Map update `m[k] = v`: replace the binding of `k` if present, else append. -/
def propsSet : Props → String → String → Props
  | [], k, v => [(k, v)]
  | (k0, v0) :: rest, k, v =>
    if k0 = k then (k0, v) :: rest else (k0, v0) :: propsSet rest k v

/-- Map lookup returning an option. -/
def propsGet : Props → String → Option String
  | [], _ => none
  | (k0, v0) :: rest, k => if k0 = k then some v0 else propsGet rest k

/-- Go map indexing `m[k]`, which yields the empty string for a missing key. -/
def propsGetD (m : Props) (k : String) : String := (propsGet m k).getD ""

/-- Modelled from the spec: utils.MessageID (its source file is not under
src/) — the ledger/entry coordinate of a message plus its batch index and
partition index. -/
structure MessageID where
  ledgerID : Int
  entryID : Int
  partitionIndex : Int
  batchIndex : Int
deriving Repr, DecidableEq

/-- Modelled from the spec: utils.Message (its source file is not under
src/) — topic, id, raw payload bytes and a properties mapping. -/
structure Message where
  topic : String
  messageID : MessageID
  payload : List Nat
  properties : Props
deriving Repr, DecidableEq

/-- Modelled from the spec: utils.SingleMessageMetadata as consumed by the
unpacker — a declared properties list and the declared payload size. -/
structure SingleMessageMetadata where
  properties : List (String × String)
  payloadSize : Nat
deriving Repr, DecidableEq

/-- Failure modes of the pipeline.  `panicSliceCap` models the Go runtime
panic raised by `make([]T, 0, n)` with a negative `n` (it aborts the call,
it is not a returned error value). -/
inductive PulsarError where
  | invalidMessageID
  | truncatedStream
  | malformedMetadata
  | panicSliceCap
deriving Repr, DecidableEq

/-- A run of decimal digits folded left onto an accumulator; `none` on the
first non-digit character. -/
def digitsVal : List Char → Nat → Option Nat
  | [], acc => some acc
  | c :: rest, acc =>
    if c.isDigit then digitsVal rest (acc * 10 + (c.toNat - 48)) else none

/-- strconv.Atoi: optional sign, at least one digit, all digits, and the
value must fit in a signed 64-bit integer. -/
def atoi (s : String) : Option Int :=
  match s.data with
  | [] => none
  | c :: rest =>
    let (neg, ds) :=
      if c = '-' then (true, rest)
      else if c = '+' then (false, rest)
      else (false, c :: rest)
    match ds with
    | [] => none
    | _ =>
      match digitsVal ds 0 with
      | none => none
      | some n =>
        let v : Int := if neg then -(n : Int) else (n : Int)
        if -(2 ^ 63) ≤ v ∧ v < 2 ^ 63 then some v else none

/-- io.ReadFull of `n` bytes from the remaining buffer: the bytes read and
the rest, or `none` when fewer than `n` bytes remain. -/
def readFull (n : Nat) (data : List Nat) : Option (List Nat × List Nat) :=
  if n ≤ data.length then some (data.take n, data.drop n) else none

/-- binary.BigEndian.Uint32 of a 4-byte buffer. -/
def beUint32 : List Nat → Nat
  | [a, b, c, d] => ((a % 256 * 256 + b % 256) * 256 + c % 256) * 256 + d % 256
  | _ => 0

def publishTimeHeader : String := "X-Pulsar-Publish-Time"
def batchHeader : String := "X-Pulsar-Num-Batch-Message"
def propertyPfx : String := "X-Pulsar-PROPERTY-"

/-- The metadata part of one batch record, as the loop body reads it: a
4-byte big-endian metadata size, then that many metadata bytes handed to
the external protobuf decoder `u`.  Returns the decoded metadata and the
remaining buffer. -/
def decodeMetaRecord (u : List Nat → Option SingleMessageMetadata)
    (data : List Nat) : Except PulsarError (SingleMessageMetadata × List Nat) :=
  match readFull 4 data with
  | none => .error .truncatedStream
  | some (buf32, rest) =>
    match readFull (beUint32 buf32) rest with
    | none => .error .truncatedStream
    | some (metaBuf, rest2) =>
      match u metaBuf with
      | none => .error .malformedMetadata
      | some meta => .ok (meta, rest2)

/-- The per-record loop of getIndividualMsgsFromBatch: reads `k` records
(metadata first, then — after folding the record's declared properties
into the one shared map, as the source does — the declared number of
payload bytes), and returns the (batch index, payload) pairs plus the
final state of the shared map. -/
def readBatchEntries (u : List Nat → Option SingleMessageMetadata) :
    Nat → Nat → List Nat → Props →
    Except PulsarError (List (Nat × List Nat) × Props)
  | 0, _, _, props => .ok ([], props)
  | k + 1, i, data, props =>
    match decodeMetaRecord u data with
    | .error e => .error e
    | .ok (meta, rest2) =>
      let props2 := meta.properties.foldl
        (fun m kv => propsSet m kv.1 kv.2) props
      match readFull meta.payloadSize rest2 with
      | .none => .error .truncatedStream
      | .some (pl, rest3) =>
        match readBatchEntries u k (i + 1) rest3 props2 with
        | .error e => .error e
        | .ok (entries, fprops) => .ok ((i, pl) :: entries, fprops)

/-- getIndividualMsgsFromBatch: parse the declared batch size out of the
shared properties map; on a parse error return no messages and no error;
run the record loop; every produced Message stores the same shared map
(whose final state reflects all records), the shared coordinate, and its
own batch index.  A negative parsed size panics in Go (slice capacity). -/
def getIndividualMsgsFromBatch (u : List Nat → Option SingleMessageMetadata)
    (topic : String) (msgID : MessageID) (data : List Nat) (properties : Props) :
    Except PulsarError (List Message) :=
  match atoi (propsGetD properties batchHeader) with
  | none => .ok []
  | some batchSize =>
    if batchSize < 0 then .error .panicSliceCap
    else
      match readBatchEntries u batchSize.toNat 0 data properties with
      | .error e => .error e
      | .ok (entries, fprops) =>
        .ok (entries.map fun e =>
          { topic := topic
            messageID := { msgID with batchIndex := (e.1 : Int) }
            payload := e.2
            properties := fprops })

/-- Whether `p` is a prefix of `s`, as strings.Trim/HasPrefix see it. -/
def listIsPfx : List Char → List Char → Bool
  | [], _ => true
  | _ :: _, [] => false
  | a :: as, b :: bs => a = b && listIsPfx as bs

/-- strings.Contains: does the haystack contain the needle as a substring. -/
def containsSub (needle : List Char) : List Char → Bool
  | [] => needle.isEmpty
  | c :: t => listIsPfx needle (c :: t) || containsSub needle t

/-- strings.Contains on strings. -/
def strContains (hay nee : String) : Bool := containsSub nee.data hay.data

/-- strings.TrimPrefix: drop `p` from the front of `s` when it is a prefix,
else return `s` unchanged. -/
def trimPfx (s p : String) : String :=
  if listIsPfx p.data s.data then String.mk (s.data.drop p.data.length) else s

/-- http.Header.Get: first value recorded for the key, empty string when
the key is absent. -/
def headerGetD (headers : List (String × String)) (k : String) : String :=
  match headers.find? (fun kv => kv.1 = k) with
  | none => ""
  | some kv => kv.2

/-- The header scan of handleResp: walk the response headers (in the map's
iteration order), accumulating shared properties; the publish-time header
(when non-empty) becomes the publish-time property; the batch-size header
records itself (when non-empty) and dispatches at once to the batch
unpacker, dropping the rest of the scan; a header whose name contains the
reserved property marker becomes a property under its trimmed name; and
with no batch header the scan ends in a single Message carrying the whole
body as payload. -/
def scanHeaders (u : List Nat → Option SingleMessageMetadata)
    (topic : String) (id : MessageID) (body : List Nat) :
    List (String × String) → Props → Except PulsarError (List Message)
  | [], props => .ok [{ topic := topic, messageID := id, payload := body,
                        properties := props }]
  | (k, v) :: rest, props =>
    if k = publishTimeHeader then
      scanHeaders u topic id body rest
        (if v = "" then props else propsSet props "publish-time" v)
    else if k = batchHeader then
      getIndividualMsgsFromBatch u topic id body
        (if v = "" then props else propsSet props batchHeader v)
    else if strContains k propertyPfx then
      scanHeaders u topic id body rest (propsSet props (trimPfx k propertyPfx) v)
    else
      scanHeaders u topic id body rest props

/-- handleResp: parse the X-Pulsar-Message-ID header through the external
id parser `parseID` (failure is the invalid-message-id error), then scan
the headers over the already-read body. -/
def handleResp (parseID : String → Option MessageID)
    (u : List Nat → Option SingleMessageMetadata) (topic : String)
    (headers : List (String × String)) (body : List Nat) :
    Except PulsarError (List Message) :=
  match parseID (headerGetD headers "X-Pulsar-Message-ID") with
  | none => .error .invalidMessageID
  | some id => scanHeaders u topic id body headers []

/-- The PeekMessages loop, fuel-indexed since the source loop need not
terminate: `peek` stands for one peekNthMessage call at a backlog
position; `n` is the remaining requested count, `count` the next position,
`acc` the accumulated messages.  Returns the outcome (`none` when the
fuel ran out with the loop still running) paired with the list of
positions actually requested, in order. -/
def peekLoopFuel (peek : Nat → Except PulsarError (List Message)) :
    Nat → Int → Nat → List Message →
    Option (Except PulsarError (List Message)) × List Nat
  | 0, n, _, acc => (if n ≤ 0 then some (.ok acc) else none, [])
  | fuel + 1, n, count, acc =>
    if n ≤ 0 then (some (.ok acc), [])
    else
      match peek count with
      | .error e => (some (.error e), [count])
      | .ok m =>
        let r := peekLoopFuel peek fuel (n - (m.length : Int)) (count + 1)
          (acc ++ m)
        (r.1, count :: r.2)

/-- PeekMessages: start at position 1 with an empty accumulator. -/
def peekMessages (peek : Nat → Except PulsarError (List Message))
    (fuel : Nat) (n : Int) :
    Option (Except PulsarError (List Message)) × List Nat :=
  peekLoopFuel peek fuel n 1 []

/-- The specification's reading of the shared map's final state: the shared
properties overlaid by the declared properties of every decoded sub-message,
in batch order, last write per key winning.  Written from the spec's words,
to be compared with what the unpacker stores in each Message. -/
def overlayAllSubMsgProps (u : List Nat → Option SingleMessageMetadata) :
    Nat → List Nat → Props → Props
  | 0, _, props => props
  | k + 1, data, props =>
    match decodeMetaRecord u data with
    | .error _ => props
    | .ok (meta, rest2) =>
      let props2 := meta.properties.foldl
        (fun m kv => propsSet m kv.1 kv.2) props
      match readFull meta.payloadSize rest2 with
      | .none => props2
      | .some (_, rest3) => overlayAllSubMsgProps u k rest3 props2

/-- The specification's reading of a single Message's properties: the shared
properties overlaid by one sub-message's own declared properties only.
Written from the spec's words, to be compared with the unpacker's output. -/
def overlayOwnProps (shared : Props) (own : List (String × String)) : Props :=
  own.foldl (fun m kv => propsSet m kv.1 kv.2) shared

/-- A concrete external metadata decoder used to exercise the unpacker:
metadata byte 0 declares property a with value x, metadata byte 1 declares
a with value y and b with value z; both declare a 1-byte payload. -/
def unmarshal0 : List Nat → Option SingleMessageMetadata := fun b =>
  if b = [0] then some { properties := [("a", "x")], payloadSize := 1 }
  else if b = [1] then
    some { properties := [("a", "y"), ("b", "z")], payloadSize := 1 }
  else none

/-- An external metadata decoder that decodes anything to empty metadata. -/
def unmarshalNil : List Nat → Option SingleMessageMetadata :=
  fun _ => some { properties := [], payloadSize := 0 }

/-- A concrete shared message id. -/
def mid0 : MessageID :=
  { ledgerID := 7, entryID := 9, partitionIndex := 0, batchIndex := -1 }

/-- A concrete batch body with two records for `unmarshal0`: each record is
a 4-byte size 1, one metadata byte, one payload byte. -/
def data0 : List Nat := [0, 0, 0, 1, 0, 10, 0, 0, 0, 1, 1, 11]

/-- Shared properties declaring batch size 2. -/
def props0 : Props := [("X-Pulsar-Num-Batch-Message", "2")]

/-- The final shared map after unpacking `data0`: both records' properties
folded in order over `props0`. -/
def fprops0 : Props :=
  [("X-Pulsar-Num-Batch-Message", "2"), ("a", "y"), ("b", "z")]

/-- What the unpacker returns on the concrete batch. -/
def msgs0 : List Message :=
  [{ topic := "t", messageID := { mid0 with batchIndex := 0 },
     payload := [10], properties := fprops0 },
   { topic := "t", messageID := { mid0 with batchIndex := 1 },
     payload := [11], properties := fprops0 }]

/-- A concrete message-id parser accepting everything. -/
def parseID0 : String → Option MessageID := fun _ => some mid0

/-- Headers whose map iteration happens to visit the batch-size header
before the custom-property header. -/
def hdrs8 : List (String × String) :=
  [("X-Pulsar-Num-Batch-Message", "1"), ("X-Pulsar-PROPERTY-foo", "bar")]

/-- Headers visiting the custom-property header before the batch header. -/
def hdrs8w : List (String × String) :=
  [("X-Pulsar-PROPERTY-foo", "bar"), ("X-Pulsar-Num-Batch-Message", "1")]

/-- A one-record batch body for `unmarshal0`: size 1, metadata byte 0,
payload byte 10. -/
def body8 : List Nat := [0, 0, 0, 1, 0, 10]

/-- A one-record batch body for `unmarshalNil`: size 0 and no payload. -/
def body8w : List Nat := [0, 0, 0, 0]

/-- A peek collaborator that always answers with zero messages. -/
def peekEmpty : Nat → Except PulsarError (List Message) := fun _ => .ok []

/-- A single message tagged with the backlog position that produced it. -/
def mkMsg (p : Nat) : Message :=
  { topic := "t", messageID := { mid0 with entryID := (p : Int) },
    payload := [p], properties := [] }

/-- A peek collaborator that answers every position with exactly one
message. -/
def peekOne : Nat → Except PulsarError (List Message) := fun p => .ok [mkMsg p]

/-- Shared properties whose batch-size header is not an integer. -/
def propsBad : Props := [("X-Pulsar-Num-Batch-Message", "oops")]

/-- Shared properties whose batch-size header is a negative integer. -/
def propsNeg : Props := [("X-Pulsar-Num-Batch-Message", "-1")]

/-- Headers of a non-batched response with one custom property. -/
def hdrs6 : List (String × String) := [("X-Pulsar-PROPERTY-foo", "bar")]

/-- A non-batched response body. -/
def body6 : List Nat := [1, 2, 3]

theorem propsGet_propsSet (m : Props) (k v k2 : String) :
    propsGet (propsSet m k v) k2 = if k2 = k then some v else propsGet m k2 := by
  induction m with
  | nil =>
    simp only [propsSet, propsGet]
    by_cases h : k2 = k
    · simp [h]
    · rw [if_neg (fun he => h he.symm), if_neg h]
  | cons hd tl ih =>
    obtain ⟨k0, v0⟩ := hd
    by_cases h0 : k0 = k
    · subst h0
      by_cases h2 : k2 = k0
      · subst h2; simp [propsSet, propsGet]
      · have h2' : ¬k0 = k2 := fun he => h2 he.symm
        simp [propsSet, propsGet, h2, h2']
    · by_cases h2 : k0 = k2
      · subst h2
        simp [propsSet, propsGet, h0]
      · simp [propsSet, propsGet, h0, h2, ih]

theorem propsGet_foldl_ne (l : List (String × String)) :
    ∀ (m : Props) (key : String), (∀ kv ∈ l, kv.1 ≠ key) →
    propsGet (l.foldl (fun m kv => propsSet m kv.1 kv.2) m) key =
      propsGet m key := by
  induction l with
  | nil => intro m key _; rfl
  | cons hd tl ih =>
    intro m key h
    have h1 : hd.1 ≠ key := h hd (List.mem_cons_self _ _)
    rw [List.foldl_cons,
      ih _ key (fun kv hkv => h kv (List.mem_cons_of_mem _ hkv)),
      propsGet_propsSet, if_neg (fun he => h1 he.symm)]

theorem decodeMetaRecord_ok_src (u : List Nat → Option SingleMessageMetadata)
    (data : List Nat) (meta : SingleMessageMetadata) (rest2 : List Nat)
    (h : decodeMetaRecord u data = .ok (meta, rest2)) :
    ∃ bs, u bs = some meta := by
  unfold decodeMetaRecord at h
  split at h
  · exact absurd h (by simp)
  next buf32 rest heq =>
    split at h
    · exact absurd h (by simp)
    next metaBuf rest2' heq2 =>
      split at h
      · exact absurd h (by simp)
      next meta' hequ =>
        refine ⟨metaBuf, ?_⟩
        rw [hequ]
        simp at h
        rw [h.1]

theorem readBatchEntries_len (u : List Nat → Option SingleMessageMetadata) :
    ∀ (k i : Nat) (data : List Nat) (props : Props)
      (entries : List (Nat × List Nat)) (fprops : Props),
    readBatchEntries u k i data props = Except.ok (entries, fprops) →
    entries.length = k := by
  intro k
  induction k with
  | zero =>
    intro i data props entries fprops h
    simp [readBatchEntries] at h
    simp [h.1.symm]
  | succ k ih =>
    intro i data props entries fprops h
    simp only [readBatchEntries] at h
    split at h
    · exact absurd h (by simp)
    next meta rest2 heq =>
      split at h
      · exact absurd h (by simp)
      next pl rest3 heq2 =>
        split at h
        · exact absurd h (by simp)
        next entries' fprops' heq3 =>
          simp at h
          rw [← h.1, List.length_cons, ih _ _ _ _ _ heq3]

theorem readBatchEntries_idx (u : List Nat → Option SingleMessageMetadata) :
    ∀ (k i : Nat) (data : List Nat) (props : Props)
      (entries : List (Nat × List Nat)) (fprops : Props),
    readBatchEntries u k i data props = Except.ok (entries, fprops) →
    ∀ (j : Nat) (hj : j < entries.length), (entries.get ⟨j, hj⟩).1 = i + j := by
  intro k
  induction k with
  | zero =>
    intro i data props entries fprops h
    simp [readBatchEntries] at h
    obtain ⟨h1, _⟩ := h
    subst h1
    intro j hj
    exact absurd hj (by simp)
  | succ k ih =>
    intro i data props entries fprops h
    simp only [readBatchEntries] at h
    split at h
    · exact absurd h (by simp)
    next meta rest2 heq =>
      split at h
      · exact absurd h (by simp)
      next pl rest3 heq2 =>
        split at h
        · exact absurd h (by simp)
        next entries' fprops' heq3 =>
          simp at h
          rw [← h.1]
          intro j hj
          cases j with
          | zero => simp
          | succ j =>
            rw [List.get_cons_succ, ih _ _ _ _ _ heq3]
            omega

theorem readBatchEntries_props (u : List Nat → Option SingleMessageMetadata) :
    ∀ (k i : Nat) (data : List Nat) (props : Props)
      (entries : List (Nat × List Nat)) (fprops : Props),
    readBatchEntries u k i data props = Except.ok (entries, fprops) →
    fprops = overlayAllSubMsgProps u k data props := by
  intro k
  induction k with
  | zero =>
    intro i data props entries fprops h
    simp [readBatchEntries] at h
    simp [overlayAllSubMsgProps, h.2.symm]
  | succ k ih =>
    intro i data props entries fprops h
    simp only [readBatchEntries] at h
    split at h
    · exact absurd h (by simp)
    next meta rest2 heq =>
      split at h
      · exact absurd h (by simp)
      next pl rest3 heq2 =>
        split at h
        · exact absurd h (by simp)
        next entries' fprops' heq3 =>
          simp at h
          rw [← h.2, ih _ _ _ _ _ heq3]
          simp [overlayAllSubMsgProps, heq, heq2]

theorem readBatchEntries_get_preserve
    (u : List Nat → Option SingleMessageMetadata) (key : String)
    (hu : ∀ bs meta, u bs = some meta → ∀ kv ∈ meta.properties, kv.1 ≠ key) :
    ∀ (k i : Nat) (data : List Nat) (props : Props)
      (entries : List (Nat × List Nat)) (fprops : Props),
    readBatchEntries u k i data props = Except.ok (entries, fprops) →
    propsGet fprops key = propsGet props key := by
  intro k
  induction k with
  | zero =>
    intro i data props entries fprops h
    simp [readBatchEntries] at h
    rw [h.2.symm]
  | succ k ih =>
    intro i data props entries fprops h
    simp only [readBatchEntries] at h
    split at h
    · exact absurd h (by simp)
    next meta rest2 heq =>
      split at h
      · exact absurd h (by simp)
      next pl rest3 heq2 =>
        split at h
        · exact absurd h (by simp)
        next entries' fprops' heq3 =>
          simp at h
          obtain ⟨bs, hbs⟩ := decodeMetaRecord_ok_src u data meta rest2 heq
          rw [← h.2, ih _ _ _ _ _ heq3,
            propsGet_foldl_ne _ _ _ (hu bs meta hbs)]

theorem getIndividualMsgs_ok (u : List Nat → Option SingleMessageMetadata)
    (topic : String) (msgID : MessageID) (data : List Nat) (props : Props)
    (k : Int) (msgs : List Message)
    (hk : atoi (propsGetD props batchHeader) = some k)
    (hok : getIndividualMsgsFromBatch u topic msgID data props =
      Except.ok msgs) :
    ∃ entries fprops, 0 ≤ k ∧
      readBatchEntries u k.toNat 0 data props = Except.ok (entries, fprops) ∧
      msgs = entries.map (fun e =>
        { topic := topic
          messageID := { msgID with batchIndex := (e.1 : Int) }
          payload := e.2
          properties := fprops }) := by
  simp only [getIndividualMsgsFromBatch, hk] at hok
  by_cases hneg : k < 0
  · rw [if_pos hneg] at hok
    exact absurd hok (by simp)
  · rw [if_neg hneg] at hok
    cases hrb : readBatchEntries u k.toNat 0 data props with
    | error e =>
      rw [hrb] at hok
      exact absurd hok (by simp)
    | ok pr =>
      obtain ⟨entries, fprops⟩ := pr
      rw [hrb] at hok
      simp only [Except.ok.injEq] at hok
      exact ⟨entries, fprops, by omega, rfl, hok.symm⟩

/-- C1: a batched response that decodes without error, with declared batch
size k, yields exactly k Messages; the i-th (0-indexed) carries BatchIndex
i and the ledger/entry coordinate of the shared MessageID. -/
theorem C1_batch_count_and_indices
    (u : List Nat → Option SingleMessageMetadata) (topic : String)
    (msgID : MessageID) (data : List Nat) (props : Props) (k : Int)
    (msgs : List Message)
    (hk : atoi (propsGetD props batchHeader) = some k)
    (hok : getIndividualMsgsFromBatch u topic msgID data props =
      Except.ok msgs) :
    (msgs.length : Int) = k ∧
    ∀ (j : Nat) (hj : j < msgs.length),
      (msgs.get ⟨j, hj⟩).messageID.batchIndex = (j : Int) ∧
      (msgs.get ⟨j, hj⟩).messageID.ledgerID = msgID.ledgerID ∧
      (msgs.get ⟨j, hj⟩).messageID.entryID = msgID.entryID := by
  obtain ⟨entries, fprops, hk0, hrb, hmap⟩ :=
    getIndividualMsgs_ok u topic msgID data props k msgs hk hok
  have hlen : entries.length = k.toNat := readBatchEntries_len u _ _ _ _ _ _ hrb
  have hidx := readBatchEntries_idx u _ _ _ _ _ _ hrb
  subst hmap
  constructor
  · rw [List.length_map, hlen]
    omega
  · intro j hj
    have hjE : j < entries.length := by simpa using hj
    have hfstj : (entries.get ⟨j, hjE⟩).1 = j := by
      rw [hidx j hjE]
      exact Nat.zero_add j
    simp only [List.get_eq_getElem, List.getElem_map]
    refine ⟨by exact_mod_cast hfstj, ?_, ?_⟩ <;> trivial

/-- C1 witness: on a concrete two-record batch the unpacker returns the
two expected messages, indexed 0 and 1, on the shared coordinate. -/
theorem C1_witness :
    atoi (propsGetD props0 batchHeader) = some 2 ∧
    getIndividualMsgsFromBatch unmarshal0 "t" mid0 data0 props0 =
      Except.ok msgs0 ∧
    (((msgs0.length : Int) = 2) ∧
     ∀ (j : Nat) (hj : j < msgs0.length),
       (msgs0.get ⟨j, hj⟩).messageID.batchIndex = (j : Int) ∧
       (msgs0.get ⟨j, hj⟩).messageID.ledgerID = mid0.ledgerID ∧
       (msgs0.get ⟨j, hj⟩).messageID.entryID = mid0.entryID) :=
  ⟨rfl, rfl,
    C1_batch_count_and_indices unmarshal0 "t" mid0 data0 props0 2 msgs0
      rfl rfl⟩

/-- C2 counterexample: in the concrete two-record batch, sub-message 0
declares only property a (with value x), yet the first returned Message
carries property b (declared only by sub-message 1), and its value of a
is the one sub-message 1 declared; the spec-side overlay of the shared
properties with sub-message 0's own properties has no b at all. -/
theorem C2_counterexample :
    getIndividualMsgsFromBatch unmarshal0 "t" mid0 data0 props0 =
      Except.ok msgs0 ∧
    unmarshal0 [0] = some { properties := [("a", "x")], payloadSize := 1 } ∧
    msgs0.map (fun m => propsGet m.properties "b") = [some "z", some "z"] ∧
    msgs0.map (fun m => propsGet m.properties "a") = [some "y", some "y"] ∧
    propsGet (overlayOwnProps props0 [("a", "x")]) "b" = none ∧
    propsGet (overlayOwnProps props0 [("a", "x")]) "a" = some "x" :=
  ⟨rfl, rfl, rfl, rfl, rfl, rfl⟩

/-- C2 (amended): every Message of a successfully decoded batch stores one
and the same properties mapping — the shared properties overlaid by the
declared properties of all sub-messages of the batch, in batch order with
last write winning — not a per-sub-message overlay. -/
theorem C2_amended_all_submsg_overlay
    (u : List Nat → Option SingleMessageMetadata) (topic : String)
    (msgID : MessageID) (data : List Nat) (props : Props) (k : Int)
    (msgs : List Message)
    (hk : atoi (propsGetD props batchHeader) = some k)
    (hok : getIndividualMsgsFromBatch u topic msgID data props =
      Except.ok msgs) :
    ∀ m ∈ msgs, m.properties = overlayAllSubMsgProps u k.toNat data props := by
  obtain ⟨entries, fprops, _, hrb, hmap⟩ :=
    getIndividualMsgs_ok u topic msgID data props k msgs hk hok
  have hfp := readBatchEntries_props u _ _ _ _ _ _ hrb
  subst hmap
  intro m hm
  obtain ⟨e, _, rfl⟩ := List.mem_map.mp hm
  exact hfp

/-- C2 (amended) witness: the concrete batch's messages all carry the full
overlay of both sub-messages' properties. -/
theorem C2_amended_witness :
    atoi (propsGetD props0 batchHeader) = some 2 ∧
    getIndividualMsgsFromBatch unmarshal0 "t" mid0 data0 props0 =
      Except.ok msgs0 ∧
    ∀ m ∈ msgs0,
      m.properties = overlayAllSubMsgProps unmarshal0 (2 : Int).toNat data0 props0 :=
  ⟨rfl, rfl,
    C2_amended_all_submsg_overlay unmarshal0 "t" mid0 data0 props0 2 msgs0
      rfl rfl⟩

/-- C3 (amended): a batch-size header value rejected by Atoi makes the
unpacker return zero messages and no error. -/
theorem C3_unparsable_batch_size_silent
    (u : List Nat → Option SingleMessageMetadata) (topic : String)
    (msgID : MessageID) (data : List Nat) (props : Props)
    (hk : atoi (propsGetD props batchHeader) = none) :
    getIndividualMsgsFromBatch u topic msgID data props = Except.ok [] := by
  simp [getIndividualMsgsFromBatch, hk]

/-- C3 (amended) witness: the header value oops is rejected by Atoi and
yields the empty result without error. -/
theorem C3_witness :
    atoi (propsGetD propsBad batchHeader) = none ∧
    getIndividualMsgsFromBatch unmarshal0 "t" mid0 data0 propsBad =
      Except.ok [] :=
  ⟨rfl, C3_unparsable_batch_size_silent unmarshal0 "t" mid0 data0 propsBad rfl⟩

/-- C3 counterexample: a negative integer batch-size header is accepted by
Atoi (so the claimed silent empty result does not happen); the code then
aborts with the slice-capacity panic of `make` on a negative capacity. -/
theorem C3_counterexample :
    atoi "-1" = some (-1) ∧
    getIndividualMsgsFromBatch unmarshal0 "t" mid0 [] propsNeg =
      Except.error PulsarError.panicSliceCap :=
  ⟨rfl, rfl⟩

/-- C5: batch decoding is all-or-nothing — a successful unpack always has
exactly the declared number of messages, never a proper non-empty prefix,
and a record whose 4-byte declared-length field is truncated always fails
the record loop with the truncated-stream error. -/
theorem C5_all_or_nothing
    (u : List Nat → Option SingleMessageMetadata) (topic : String)
    (msgID : MessageID) (data : List Nat) (props : Props) (k : Int)
    (hk : atoi (propsGetD props batchHeader) = some k) :
    (∀ msgs, getIndividualMsgsFromBatch u topic msgID data props =
        Except.ok msgs → (msgs.length : Int) = k) ∧
    (∀ (kk i : Nat) (data' : List Nat) (props' : Props), 1 ≤ kk →
      data'.length < 4 →
      readBatchEntries u kk i data' props' =
        Except.error PulsarError.truncatedStream) := by
  constructor
  · intro msgs hok
    obtain ⟨entries, fprops, hk0, hrb, hmap⟩ :=
      getIndividualMsgs_ok u topic msgID data props k msgs hk hok
    have hlen := readBatchEntries_len u _ _ _ _ _ _ hrb
    subst hmap
    rw [List.length_map, hlen]
    omega
  · intro kk i data' props' h1 h4
    cases kk with
    | zero => omega
    | succ k' =>
      have hno : ¬4 ≤ data'.length := by omega
      simp [readBatchEntries, decodeMetaRecord, readFull, hno]

/-- C5 witness: concrete instantiation on the declared-size-2 batch. -/
theorem C5_witness :
    atoi (propsGetD props0 batchHeader) = some 2 ∧
    ((∀ msgs, getIndividualMsgsFromBatch unmarshal0 "t" mid0 data0 props0 =
        Except.ok msgs → (msgs.length : Int) = 2) ∧
     (∀ (kk i : Nat) (data' : List Nat) (props' : Props), 1 ≤ kk →
       data'.length < 4 →
       readBatchEntries unmarshal0 kk i data' props' =
         Except.error PulsarError.truncatedStream)) :=
  ⟨rfl, C5_all_or_nothing unmarshal0 "t" mid0 data0 props0 2 rfl⟩

/-- C9: all Messages produced from one successfully decoded batch have
pairwise-equal properties mappings. -/
theorem C9_pairwise_equal_properties
    (u : List Nat → Option SingleMessageMetadata) (topic : String)
    (msgID : MessageID) (data : List Nat) (props : Props)
    (msgs : List Message)
    (hok : getIndividualMsgsFromBatch u topic msgID data props =
      Except.ok msgs) :
    ∀ m1 ∈ msgs, ∀ m2 ∈ msgs, m1.properties = m2.properties := by
  cases hk : atoi (propsGetD props batchHeader) with
  | none =>
    simp only [getIndividualMsgsFromBatch, hk, Except.ok.injEq] at hok
    rw [← hok]
    intro m1 hm1
    exact absurd hm1 (by simp)
  | some k =>
    obtain ⟨entries, fprops, _, hrb, hmap⟩ :=
      getIndividualMsgs_ok u topic msgID data props k msgs hk hok
    subst hmap
    intro m1 hm1 m2 hm2
    obtain ⟨e1, _, rfl⟩ := List.mem_map.mp hm1
    obtain ⟨e2, _, rfl⟩ := List.mem_map.mp hm2
    rfl

/-- C9 witness: pairwise-equal properties on the concrete batch. -/
theorem C9_witness :
    getIndividualMsgsFromBatch unmarshal0 "t" mid0 data0 props0 =
      Except.ok msgs0 ∧
    ∀ m1 ∈ msgs0, ∀ m2 ∈ msgs0, m1.properties = m2.properties :=
  ⟨rfl,
    C9_pairwise_equal_properties unmarshal0 "t" mid0 data0 props0 msgs0 rfl⟩

theorem peekLoopFuel_reqs_le (peek : Nat → Except PulsarError (List Message)) :
    ∀ (fuel : Nat) (n : Int) (count : Nat) (acc : List Message),
    (peekLoopFuel peek fuel n count acc).2.length ≤ fuel := by
  intro fuel
  induction fuel with
  | zero => intro n count acc; simp [peekLoopFuel]
  | succ fuel ih =>
    intro n count acc
    simp only [peekLoopFuel]
    by_cases h : n ≤ 0
    · simp [h]
    · rw [if_neg h]
      cases hp : peek count with
      | error e => simp
      | ok m =>
        simp only [List.length_cons]
        exact Nat.succ_le_succ (ih _ _ _)

theorem peekLoopFuel_total (peek : Nat → Except PulsarError (List Message))
    (hpeek : ∀ p m, peek p = Except.ok m → 1 ≤ m.length) :
    ∀ (fuel : Nat) (n : Int) (count : Nat) (acc : List Message),
    n ≤ (fuel : Int) →
    (peekLoopFuel peek fuel n count acc).1.isSome = true := by
  intro fuel
  induction fuel with
  | zero =>
    intro n count acc hle
    have h0 : n ≤ 0 := by exact_mod_cast hle
    simp [peekLoopFuel, h0]
  | succ fuel ih =>
    intro n count acc hle
    simp only [peekLoopFuel]
    by_cases h : n ≤ 0
    · simp [h]
    · rw [if_neg h]
      cases hp : peek count with
      | error e => simp
      | ok m =>
        simp only []
        apply ih
        have h1 : (1 : Int) ≤ (m.length : Int) := by
          exact_mod_cast hpeek count m hp
        push_cast at hle
        omega

/-- C4 (amended): under the assumption that every successful peek response
carries at least one message, the peek loop for requested count n finishes
within n iterations and issues at most n requests.  (Without that
assumption the bound fails — see the counterexample.) -/
theorem C4_request_bound (peek : Nat → Except PulsarError (List Message))
    (hpeek : ∀ p m, peek p = Except.ok m → 1 ≤ m.length) (n : Int) :
    (peekMessages peek n.toNat n).1.isSome = true ∧
    (peekMessages peek n.toNat n).2.length ≤ n.toNat := by
  constructor
  · exact peekLoopFuel_total peek hpeek n.toNat n 1 [] (by omega)
  · exact peekLoopFuel_reqs_le peek n.toNat n 1 []

/-- C4 witness: with one message per position and n = 3 the loop finishes
and issues at most 3 requests. -/
theorem C4_witness :
    (∀ p m, peekOne p = Except.ok m → 1 ≤ m.length) ∧
    ((peekMessages peekOne (3 : Int).toNat 3).1.isSome = true ∧
     (peekMessages peekOne (3 : Int).toNat 3).2.length ≤ (3 : Int).toNat) := by
  have hp : ∀ p m, peekOne p = Except.ok m → 1 ≤ m.length := by
    intro p m h
    simp only [peekOne, Except.ok.injEq] at h
    rw [← h]
    simp
  exact ⟨hp, C4_request_bound peekOne hp 3⟩

/-- C4 counterexample: when every response carries zero messages (which the
unpacker produces for an unparsable batch-size header), the loop keeps
issuing requests past the requested count — with n = 1, five requests have
already been issued and the loop has still not stopped. -/
theorem C4_counterexample :
    peekMessages peekEmpty 5 1 = (none, [1, 2, 3, 4, 5]) ∧
    ¬((peekMessages peekEmpty 5 1).2.length ≤ 1) := by
  constructor
  · rfl
  · intro h
    simp [peekMessages, peekLoopFuel, peekEmpty] at h

/-- C7: requesting n = 5 where every position yields exactly one message
issues exactly the five requests at positions 1..5, in order, and returns
the five messages in position order. -/
theorem C7_five_single_positions (peek : Nat → Except PulsarError (List Message))
    (f : Nat → Message) (hp : ∀ p, peek p = Except.ok [f p]) :
    peekMessages peek 5 5 =
      (some (Except.ok [f 1, f 2, f 3, f 4, f 5]), [1, 2, 3, 4, 5]) := by
  norm_num [peekMessages, peekLoopFuel, hp]

/-- C7 witness: concrete one-message-per-position collaborator. -/
theorem C7_witness :
    peekMessages peekOne 5 5 =
      (some (Except.ok [mkMsg 1, mkMsg 2, mkMsg 3, mkMsg 4, mkMsg 5]),
        [1, 2, 3, 4, 5]) :=
  C7_five_single_positions peekOne mkMsg (fun _ => rfl)

/-- C10: a non-positive requested count issues no request and returns the
empty list without error. -/
theorem C10_nonpositive_returns_empty
    (peek : Nat → Except PulsarError (List Message)) (fuel : Nat) (n : Int)
    (hn : n ≤ 0) :
    peekMessages peek fuel n = (some (Except.ok []), []) := by
  cases fuel with
  | zero => simp [peekMessages, peekLoopFuel, hn]
  | succ fuel => simp [peekMessages, peekLoopFuel, hn]

/-- C10 witness: n = -2 yields no requests and an empty, error-free result. -/
theorem C10_witness :
    (-2 : Int) ≤ 0 ∧
    peekMessages peekOne 3 (-2) = (some (Except.ok []), []) :=
  ⟨by norm_num, C10_nonpositive_returns_empty peekOne 3 (-2) (by norm_num)⟩

theorem scanHeaders_no_batch (u : List Nat → Option SingleMessageMetadata)
    (topic : String) (id : MessageID) (body : List Nat) :
    ∀ (hs : List (String × String)) (props : Props),
    (∀ kv ∈ hs, kv.1 ≠ batchHeader) →
    ∃ p2, scanHeaders u topic id body hs props =
      Except.ok [{ topic := topic, messageID := id, payload := body,
                   properties := p2 }] := by
  intro hs
  induction hs with
  | nil => intro props _; exact ⟨props, rfl⟩
  | cons hd tl ih =>
    intro props h
    obtain ⟨k, v⟩ := hd
    have hkb : k ≠ batchHeader := h (k, v) (List.mem_cons_self _ _)
    have htl : ∀ kv ∈ tl, kv.1 ≠ batchHeader :=
      fun kv hkv => h kv (List.mem_cons_of_mem _ hkv)
    simp only [scanHeaders]
    by_cases h1 : k = publishTimeHeader
    · rw [if_pos h1]
      exact ih _ htl
    · rw [if_neg h1, if_neg hkb]
      by_cases h3 : strContains k propertyPfx = true
      · rw [if_pos h3]
        exact ih _ htl
      · rw [if_neg h3]
        exact ih _ htl

/-- C6: a response with a parsable message-id header and no batch-size
header yields exactly one Message whose payload is the whole body. -/
theorem C6_single_full_body (parseID : String → Option MessageID)
    (u : List Nat → Option SingleMessageMetadata) (topic : String)
    (headers : List (String × String)) (body : List Nat) (id : MessageID)
    (hid : parseID (headerGetD headers "X-Pulsar-Message-ID") = some id)
    (hnb : ∀ kv ∈ headers, kv.1 ≠ batchHeader) :
    ∃ props, handleResp parseID u topic headers body =
      Except.ok [{ topic := topic, messageID := id, payload := body,
                   properties := props }] := by
  simp only [handleResp, hid]
  exact scanHeaders_no_batch u topic id body headers [] hnb

/-- C6 witness: one custom-property header, no batch header. -/
theorem C6_witness :
    parseID0 (headerGetD hdrs6 "X-Pulsar-Message-ID") = some mid0 ∧
    (∀ kv ∈ hdrs6, kv.1 ≠ batchHeader) ∧
    ∃ props, handleResp parseID0 unmarshal0 "t" hdrs6 body6 =
      Except.ok [{ topic := "t", messageID := mid0, payload := body6,
                   properties := props }] := by
  refine ⟨rfl, by decide, ?_⟩
  exact C6_single_full_body parseID0 unmarshal0 "t" hdrs6 body6 mid0 rfl
    (by decide)

theorem listIsPfx_append (a : List Char) :
    ∀ b, listIsPfx a b = true → b = a ++ b.drop a.length := by
  induction a with
  | nil => intro b _; simp
  | cons c cs ih =>
    intro b h
    cases b with
    | nil => simp [listIsPfx] at h
    | cons d ds =>
      simp only [listIsPfx, Bool.and_eq_true, decide_eq_true_eq] at h
      obtain ⟨h1, h2⟩ := h
      subst h1
      simp only [List.cons_append, List.length_cons, List.drop_succ_cons,
        List.cons.injEq, true_and]
      exact ih ds h2

theorem trimPfx_cases (k p r : String) (ht : trimPfx k p = r) :
    k.data = p.data ++ r.data ∨ k = r := by
  unfold trimPfx at ht
  by_cases hp : listIsPfx p.data k.data = true
  · rw [if_pos hp] at ht
    left
    rw [← ht]
    exact listIsPfx_append p.data k.data hp
  · rw [if_neg hp] at ht
    right
    exact ht

theorem getIndividualMsgs_get_preserve
    (u : List Nat → Option SingleMessageMetadata) (key : String)
    (hu : ∀ bs meta, u bs = some meta → ∀ kv ∈ meta.properties, kv.1 ≠ key)
    (topic : String) (msgID : MessageID) (data : List Nat) (props : Props)
    (msgs : List Message)
    (hok : getIndividualMsgsFromBatch u topic msgID data props =
      Except.ok msgs) :
    ∀ m ∈ msgs, propsGet m.properties key = propsGet props key := by
  cases hk : atoi (propsGetD props batchHeader) with
  | none =>
    simp only [getIndividualMsgsFromBatch, hk, Except.ok.injEq] at hok
    rw [← hok]
    intro m hm
    exact absurd hm (by simp)
  | some k =>
    obtain ⟨entries, fprops, _, hrb, hmap⟩ :=
      getIndividualMsgs_ok u topic msgID data props k msgs hk hok
    have hpres := readBatchEntries_get_preserve u key hu _ _ _ _ _ _ hrb
    subst hmap
    intro m hm
    obtain ⟨e, _, rfl⟩ := List.mem_map.mp hm
    exact hpres

theorem scanHeaders_preserve_foo (u : List Nat → Option SingleMessageMetadata)
    (topic : String) (id : MessageID) (body : List Nat)
    (hu : ∀ bs meta, u bs = some meta →
      ∀ kv ∈ meta.properties, kv.1 ≠ "foo") :
    ∀ (hs : List (String × String)) (props : Props),
    propsGet props "foo" = some "bar" →
    (∀ kv ∈ hs, kv.1 ≠ propertyPfx ++ "foo") →
    ∀ msgs, scanHeaders u topic id body hs props = Except.ok msgs →
    ∀ m ∈ msgs, propsGet m.properties "foo" = some "bar" := by
  intro hs
  induction hs with
  | nil =>
    intro props hfoo _ msgs hok m hm
    simp only [scanHeaders, Except.ok.injEq] at hok
    rw [← hok] at hm
    simp only [List.mem_singleton] at hm
    rw [hm]
    exact hfoo
  | cons hd tl ih =>
    intro props hfoo hne msgs hok m hm
    obtain ⟨k, v⟩ := hd
    have htl : ∀ kv ∈ tl, kv.1 ≠ propertyPfx ++ "foo" :=
      fun kv hkv => hne kv (List.mem_cons_of_mem _ hkv)
    simp only [scanHeaders] at hok
    by_cases h1 : k = publishTimeHeader
    · rw [if_pos h1] at hok
      refine ih _ ?_ htl msgs hok m hm
      by_cases hv : v = ""
      · rw [if_pos hv]; exact hfoo
      · rw [if_neg hv, propsGet_propsSet, if_neg (by decide)]; exact hfoo
    · rw [if_neg h1] at hok
      by_cases h2 : k = batchHeader
      · rw [if_pos h2] at hok
        have hfoo2 : propsGet (if v = "" then props
            else propsSet props batchHeader v) "foo" = some "bar" := by
          by_cases hv : v = ""
          · rw [if_pos hv]; exact hfoo
          · rw [if_neg hv, propsGet_propsSet, if_neg (by decide)]; exact hfoo
        rw [getIndividualMsgs_get_preserve u "foo" hu topic id body _ msgs
          hok m hm]
        exact hfoo2
      · rw [if_neg h2] at hok
        by_cases h3 : strContains k propertyPfx = true
        · rw [if_pos h3] at hok
          refine ih _ ?_ htl msgs hok m hm
          rw [propsGet_propsSet]
          have hkne : k ≠ propertyPfx ++ "foo" :=
            hne (k, v) (List.mem_cons_self _ _)
          have htne : ¬("foo" = trimPfx k propertyPfx) := by
            intro he
            rcases trimPfx_cases k propertyPfx "foo" he.symm with hk | hk
            · apply hkne
              apply String.ext
              rw [hk]
              rfl
            · rw [hk] at h3
              exact absurd h3 (by decide)
          rw [if_neg htne]
          exact hfoo
        · rw [if_neg h3] at hok
          exact ih _ hfoo htl msgs hok m hm

theorem scanHeaders_append_no_batch
    (u : List Nat → Option SingleMessageMetadata) (topic : String)
    (id : MessageID) (body : List Nat) :
    ∀ (pre rest : List (String × String)) (props : Props),
    (∀ kv ∈ pre, kv.1 ≠ batchHeader) →
    ∃ props', scanHeaders u topic id body (pre ++ rest) props =
      scanHeaders u topic id body rest props' := by
  intro pre
  induction pre with
  | nil => intro rest props _; exact ⟨props, rfl⟩
  | cons hd tl ih =>
    intro rest props h
    obtain ⟨k, v⟩ := hd
    have hkb : k ≠ batchHeader := h (k, v) (List.mem_cons_self _ _)
    have htl : ∀ kv ∈ tl, kv.1 ≠ batchHeader :=
      fun kv hkv => h kv (List.mem_cons_of_mem _ hkv)
    simp only [List.cons_append, scanHeaders]
    by_cases h1 : k = publishTimeHeader
    · rw [if_pos h1]; exact ih rest _ htl
    · rw [if_neg h1, if_neg hkb]
      by_cases h3 : strContains k propertyPfx = true
      · rw [if_pos h3]; exact ih rest _ htl
      · rw [if_neg h3]; exact ih rest _ htl

/-- C8 counterexample: the response's headers contain the custom-property
header foo: bar, but with the batch-size header scanned first the produced
Message has no foo property at all — the claim fails for that scan order. -/
theorem C8_counterexample :
    (propertyPfx ++ "foo", "bar") ∈ hdrs8 ∧
    handleResp parseID0 unmarshal0 "t" hdrs8 body8 =
      Except.ok [{ topic := "t",
                   messageID := { ledgerID := 7, entryID := 9,
                                  partitionIndex := 0, batchIndex := 0 },
                   payload := [10],
                   properties := [("X-Pulsar-Num-Batch-Message", "1"),
                                  ("a", "x")] }] ∧
    propsGet [("X-Pulsar-Num-Batch-Message", "1"), ("a", "x")] "foo" =
      none :=
  ⟨by decide, rfl, rfl⟩

/-- C8 (amended): a custom-property header foo: bar yields the property
entry foo ↦ bar in every Message of the response, provided the header is
scanned before any batch-size header (always the case in a non-batched
response) and, when the response is a batch, no sub-message redeclares the
key foo.  (When the batch-size header is scanned first, the scan
short-circuits and the entry is dropped; a sub-message redeclaring foo
overwrites it.) -/
theorem C8_property_header_in_every_message
    (parseID : String → Option MessageID)
    (u : List Nat → Option SingleMessageMetadata) (topic : String)
    (pre post : List (String × String)) (body : List Nat) (id : MessageID)
    (hid : parseID (headerGetD (pre ++ (propertyPfx ++ "foo", "bar") :: post)
      "X-Pulsar-Message-ID") = some id)
    (hnodup : ((pre ++ (propertyPfx ++ "foo", "bar") :: post).map
      Prod.fst).Nodup)
    (hnb : ∀ kv ∈ pre, kv.1 ≠ batchHeader)
    (hu : ∀ bs meta, u bs = some meta →
      ∀ kv ∈ meta.properties, kv.1 ≠ "foo") :
    ∀ msgs, handleResp parseID u topic
      (pre ++ (propertyPfx ++ "foo", "bar") :: post) body = Except.ok msgs →
    ∀ m ∈ msgs, propsGet m.properties "foo" = some "bar" := by
  intro msgs hok m hm
  simp only [handleResp, hid] at hok
  obtain ⟨props', hscan⟩ := scanHeaders_append_no_batch u topic id body pre
    ((propertyPfx ++ "foo", "bar") :: post) [] hnb
  rw [hscan] at hok
  simp only [scanHeaders] at hok
  rw [if_neg (by decide), if_neg (by decide), if_pos (by decide)] at hok
  have htrim : trimPfx (propertyPfx ++ "foo") propertyPfx = "foo" := by decide
  rw [htrim] at hok
  have hpost : ∀ kv ∈ post, kv.1 ≠ propertyPfx ++ "foo" := by
    intro kv hkv he
    rw [List.map_append, List.map_cons, List.nodup_append] at hnodup
    have hmem : kv.1 ∈ post.map Prod.fst := List.mem_map_of_mem _ hkv
    rw [he] at hmem
    exact (List.nodup_cons.mp hnodup.2.1).1 hmem
  exact scanHeaders_preserve_foo u topic id body hu post _
    (by rw [propsGet_propsSet, if_pos rfl]) hpost msgs hok m hm

/-- C8 (amended) witness: property header scanned before the batch header,
sub-messages declaring no properties. -/
theorem C8_witness :
    parseID0 (headerGetD ([] ++ (propertyPfx ++ "foo", "bar") ::
      [("X-Pulsar-Num-Batch-Message", "1")]) "X-Pulsar-Message-ID") =
        some mid0 ∧
    ∀ msgs, handleResp parseID0 unmarshalNil "t"
      ([] ++ (propertyPfx ++ "foo", "bar") ::
        [("X-Pulsar-Num-Batch-Message", "1")]) body8w = Except.ok msgs →
    ∀ m ∈ msgs, propsGet m.properties "foo" = some "bar" := by
  refine ⟨rfl, ?_⟩
  exact C8_property_header_in_every_message parseID0 unmarshalNil "t" []
    [("X-Pulsar-Num-Batch-Message", "1")] body8w mid0 rfl (by decide)
    (by intro kv hkv; exact absurd hkv (by simp))
    (by intro bs meta h kv hkv
        simp only [unmarshalNil, Option.some.injEq] at h
        rw [← h] at hkv
        exact absurd hkv (by simp))

end PulsarPeek
